import Mathlib

/-!
Verification of the optimistic-update saga engine of `jotai-optimistic`
(`src/index.ts`): the saga builder/runner `useAtomImmerSaga`, the derived
lens `createDerivedImmerAtom`, and the initialization hook
`useSetInitialAtomValueFromQuery`.

The store ("jotai atom with an immer write function") holds one value and
updates it by applying a mutator to the current value, synchronously and
atomically.  We model store values as flat string-keyed records
(`String → Option Nat`) and draft mutations as lists of primitive
set/remove operations on keys; immer's patch engine
(`produceWithPatches` / `applyPatches`) is modelled by diff-based patch
generation over the keys touched by the mutation, which is how immer
emits one add/replace/remove patch per modified key of the draft.
-/

namespace JotaiOptimistic

/-- A store value: a flat record assigning to each key either a number or
nothing (the key is absent). -/
abbrev Value : Type := String → Option Nat

/-- A primitive draft mutation, as performed imperatively inside an immer
recipe: assign a key, or delete a key. -/
inductive Mutation where
  | set (key : String) (value : Nat)
  | remove (key : String)
deriving DecidableEq

/-- The key a mutation touches. -/
def Mutation.key : Mutation → String
  | .set k _ => k
  | .remove k => k

/-- Apply one mutation to a value. -/
def applyMutation (v : Value) : Mutation → Value
  | .set k n => fun q => if q = k then some n else v q
  | .remove k => fun q => if q = k then none else v q

/-- Run a draft recipe (a list of mutations, in order) on a value. -/
def applyRecipe (v : Value) (r : List Mutation) : Value :=
  r.foldl applyMutation v

/-- The keys a recipe touches, in order of first mutation. -/
def keysOf (r : List Mutation) : List String :=
  r.map Mutation.key

/-- Immer patch operations. -/
inductive PatchOp where
  | add
  | replace
  | remove
deriving DecidableEq

/-- An immer patch: an operation, a path (one key, since values are flat
records) and, for add/replace, the value written there. -/
structure Patch where
  op : PatchOp
  path : String
  value : Option Nat
deriving DecidableEq

/-- The value a patch leaves at its path when applied: `none` for a
remove patch, the carried value otherwise. -/
def patchTarget (p : Patch) : Option Nat :=
  match p.op with
  | .remove => none
  | _ => p.value

/-- Apply one patch to a value (immer's `applyPatches`, one step):
add/replace write the carried value at the path, remove deletes it. -/
def applyPatch (v : Value) (p : Patch) : Value :=
  match p.op with
  | .remove => fun q => if q = p.path then none else v q
  | _ =>
    match p.value with
    | some n => fun q => if q = p.path then some n else v q
    | none => v

/-- Immer's `applyPatches`: apply a patch list in order. -/
def applyPatches (v : Value) (ps : List Patch) : Value :=
  ps.foldl applyPatch v

/-- Build the patch recording that a key went from `oldV` to `newV`:
immer emits `add` when the key was absent, `replace` when it changes,
and `remove` when it is deleted. -/
def mkPatch (k : String) (oldV newV : Option Nat) : Patch :=
  match oldV, newV with
  | none, some n => ⟨.add, k, some n⟩
  | some _, some n => ⟨.replace, k, some n⟩
  | _, none => ⟨.remove, k, none⟩

/-- The keys of a value actually changed by a recipe: keys the recipe
touches whose content differs between the base and the result.  Immer
emits patches exactly for the modified keys of the draft. -/
def changedKeys (v : Value) (r : List Mutation) : List String :=
  (keysOf r).dedup.filter (fun k => decide (v k ≠ applyRecipe v r k))

/-- The forward patch list of a mutation: one patch per changed key,
writing the new content. -/
def forwardPatches (v : Value) (r : List Mutation) : List Patch :=
  (changedKeys v r).map (fun k => mkPatch k (v k) (applyRecipe v r k))

/-- The inverse patch list of a mutation: one patch per changed key,
restoring the base content. -/
def invPatchesOf (v : Value) (r : List Mutation) : List Patch :=
  (changedKeys v r).map (fun k => mkPatch k (applyRecipe v r k) (v k))

/-- Immer's `produceWithPatches`: run the recipe on the value and return
the next value together with the forward and inverse patch lists. -/
def produceWithPatches (v : Value) (r : List Mutation) :
    Value × List Patch × List Patch :=
  (applyRecipe v r, forwardPatches v r, invPatchesOf v r)

/-- The saga descriptor (`Saga<Value, ReturnContext, EffectResult>` in
`src/index.ts`): at most one function per stage.  Stage functions may
throw (a JS exception of type `Exn`), modelled with `Except`; a stage's
normal outcome is the list of draft mutations it performs (plus, for
`update`, its return context).  The effect stage's function is an opaque
handle of type `EF`: the runner only invokes it to obtain a promise
whose settlement is environmental, so the model records the invocation
and its arguments and takes the settlement as an input. -/
structure Saga (Ctx Res Err Exn EF : Type) where
  update : Option (Value → Except Exn (List Mutation × Ctx))
  effect : Option EF
  postEffect : Option (Res → Value → Except Exn (List Mutation))
  onError : Option (Err → Value → Except Exn (List Mutation))

/-- The saga with no stage registered (`const saga = {}` in `runSaga`). -/
def emptySaga (Ctx Res Err Exn EF : Type) : Saga Ctx Res Err Exn EF :=
  ⟨none, none, none, none⟩

/-- One call on the `collector` object of `runSaga`
(src/index.ts:120-133).  The collector defines exactly the methods
`update`, `effect` and `postEffect` — there is no `onError` method, so
this type has no `onError` constructor. -/
inductive BuilderCall (Ctx Res Err Exn EF : Type) where
  | update (updateFn : Value → Except Exn (List Mutation × Ctx))
  | effect (effectFn : EF)
  | postEffect (postEffectFn : Res → Value → Except Exn (List Mutation))

/-- The effect of one collector call on the shared saga descriptor: the
field for that stage is assigned (overwritten), and the same collector
is returned for chaining. -/
def collectorStep {Ctx Res Err Exn EF : Type}
    (saga : Saga Ctx Res Err Exn EF) :
    BuilderCall Ctx Res Err Exn EF → Saga Ctx Res Err Exn EF
  | .update f => { saga with update := some f }
  | .effect f => { saga with effect := some f }
  | .postEffect f => { saga with postEffect := some f }

/-- Running a saga-collector callback: the chain of builder calls it
makes is applied, in order, to the one saga descriptor shared by the
collector's methods. -/
def collectSaga {Ctx Res Err Exn EF : Type}
    (calls : List (BuilderCall Ctx Res Err Exn EF)) :
    Saga Ctx Res Err Exn EF :=
  calls.foldl collectorStep (emptySaga Ctx Res Err Exn EF)

/-- How the effect stage's promise settles: resolution with an effect
result, or rejection with a failure reason. -/
inductive Outcome (Res Err : Type) where
  | resolved (r : Res)
  | rejected (e : Err)

/-- Trace of one saga run: the final store value, the inverse patch list
the runner retained, which stage functions were invoked with which
arguments, and whether the inverse patches were applied (rollback). -/
structure RunResult (Ctx Res Err EF : Type) where
  finalValue : Value
  capturedInverse : Option (List Patch)
  effectCall : Option (EF × Value × Ctx)
  postEffectCall : Option Res
  onErrorCall : Option Err
  rollbackApplied : Bool

/-- The saga runner (`runSaga` inside `useAtomImmerSaga`,
src/index.ts:116-192).  Inputs beyond the saga: the store's value when
the saga starts, the concurrent updates `interleave` that other code
commits to the store between the optimistic update and the effect's
settlement, and the settlement `outcome` itself.

Per the source: if no `update` stage is registered nothing runs.
Otherwise one atomic store update runs `produceWithPatches` on the
current value with the update recipe, applies the forward patches to the
live draft, and retains `nextState` and the inverse patches.  If an
`effect` stage is registered it is invoked with `nextState` and the
update's return context; on resolution, `postEffect` (if registered)
runs against the then-current draft with the resolved result; on
rejection, one atomic update applies the retained inverse patches to the
then-current draft, then a second atomic update runs `onError` (if
registered) with the failure reason.  Exceptions from `update`,
`postEffect` or `onError` are not caught and propagate (`Except.error`). -/
def runSaga {Ctx Res Err Exn EF : Type} (saga : Saga Ctx Res Err Exn EF)
    (v0 : Value) (interleave : Value → Value) (outcome : Outcome Res Err) :
    Except Exn (RunResult Ctx Res Err EF) :=
  match saga.update with
  | none => Except.ok ⟨v0, none, none, none, none, false⟩
  | some runUpdate =>
    match runUpdate v0 with
    | .error ex => .error ex
    | .ok (recipe, resultContext) =>
      let pw := produceWithPatches v0 recipe
      let nextState := pw.1
      let inversePatches := pw.2.2
      let v1 := applyPatches v0 pw.2.1
      match saga.effect with
      | none => Except.ok ⟨v1, some inversePatches, none, none, none, false⟩
      | some runEffect =>
        let current := interleave v1
        match outcome with
        | .resolved effectResult =>
          match saga.postEffect with
          | none =>
            Except.ok ⟨current, some inversePatches,
              some (runEffect, nextState, resultContext), none, none, false⟩
          | some runPostEffect =>
            match runPostEffect effectResult current with
            | .error ex => .error ex
            | .ok peRecipe =>
              Except.ok ⟨applyRecipe current peRecipe, some inversePatches,
                some (runEffect, nextState, resultContext),
                some effectResult, none, false⟩
        | .rejected err =>
          let v3 := applyPatches current inversePatches
          match saga.onError with
          | none =>
            Except.ok ⟨v3, some inversePatches,
              some (runEffect, nextState, resultContext), none, none, true⟩
          | some runOnError =>
            match runOnError err v3 with
            | .error ex => .error ex
            | .ok oeRecipe =>
              Except.ok ⟨applyRecipe v3 oeRecipe, some inversePatches,
                some (runEffect, nextState, resultContext), none, some err,
                true⟩

/-- Observer: the final store value of a run that did not propagate an
exception. -/
def finalOf {Ctx Res Err Exn EF : Type} :
    Except Exn (RunResult Ctx Res Err EF) → Option Value
  | .ok r => some r.finalValue
  | .error _ => none

/-- Observer: whether the run applied the inverse patches. -/
def rollbackOf {Ctx Res Err Exn EF : Type} :
    Except Exn (RunResult Ctx Res Err EF) → Bool
  | .ok r => r.rollbackApplied
  | .error _ => false

/-- Observer: the effect invocation of a run (function and arguments). -/
def effectCallOf {Ctx Res Err Exn EF : Type} :
    Except Exn (RunResult Ctx Res Err EF) → Option (EF × Value × Ctx)
  | .ok r => r.effectCall
  | .error _ => none

/-- Observer: the effect result passed to the postEffect stage. -/
def postEffectCallOf {Ctx Res Err Exn EF : Type} :
    Except Exn (RunResult Ctx Res Err EF) → Option Res
  | .ok r => r.postEffectCall
  | .error _ => none

/-- Observer: the failure reason passed to the onError stage. -/
def onErrorCallOf {Ctx Res Err Exn EF : Type} :
    Except Exn (RunResult Ctx Res Err EF) → Option Err
  | .ok r => r.onErrorCall
  | .error _ => none

/-- Observer: the inverse patch list the runner retained. -/
def capturedInverseOf {Ctx Res Err Exn EF : Type} :
    Except Exn (RunResult Ctx Res Err EF) → Option (List Patch)
  | .ok r => r.capturedInverse
  | .error _ => none

/-- Observer: whether the run completed without propagating an
exception or an unhandled rejection. -/
def exceptIsOk {Exn α : Type} : Except Exn α → Bool
  | .ok _ => true
  | .error _ => false

/-! Derived lens (`createDerivedImmerAtom`, src/index.ts:39-56).  The
parent atom's value is a nested record; a projection that addresses a
sub-value is a path of keys.  The derived atom's write function performs
one `set` on the root atom whose mutator reads the sub-object addressed
by the projection out of the parent draft and runs the sub-value mutator
on it in place, so the parent draft ends with that node replaced by the
mutated one. -/

/-- A nested store value: a number leaf, or a record of named fields. -/
inductive JVal where
  | num (n : Nat)
  | obj (fields : List (String × JVal))

/-- First-match association lookup in a record's field list. -/
def getAssoc (k : String) : List (String × JVal) → Option JVal
  | [] => none
  | kv :: rest => if kv.1 = k then some kv.2 else getAssoc k rest

/-- Rewrite the first field named `k` with `f`; other fields unchanged. -/
def modifyAssoc (k : String) (f : JVal → JVal) :
    List (String × JVal) → List (String × JVal)
  | [] => []
  | kv :: rest =>
    if kv.1 = k then (kv.1, f kv.2) :: rest else kv :: modifyAssoc k f rest

/-- Resolve a key path in a nested value (the projection function
`getDerivedValue` reading the sub-object out of the parent). -/
def getPath : List String → JVal → Option JVal
  | [], v => some v
  | k :: ks, .obj fields =>
    match getAssoc k fields with
    | some sub => getPath ks sub
    | none => none
  | _ :: _, .num _ => none

/-- Replace the node addressed by a key path with a new value: the
write-back that in-place mutation of the projected draft node performs
on the parent draft. -/
def setPath : List String → JVal → JVal → JVal
  | [], newV, _ => newV
  | k :: ks, newV, .obj fields =>
    .obj (modifyAssoc k (fun sub => setPath ks newV sub) fields)
  | _ :: _, _, v => v

/-- The mutator the derived atom's write passes to the root atom's
`set` (src/index.ts:48-51): read the sub-object the projection
addresses out of the parent draft, run the sub-value mutator on it, and
(by draft aliasing) the parent ends with that node replaced by the
result.  If the projection finds nothing, the mutation operates on an
absent value and the parent is unchanged. -/
def derivedAtomMutator (path : List String) (subMutator : JVal → JVal)
    (draft : JVal) : JVal :=
  match getPath path draft with
  | some subObject => setPath path (subMutator subObject) draft
  | none => draft

/-- The list of parent-store updates one derived-atom write invokes: the
write function calls `set(rootAtom, ...)` exactly once. -/
def derivedAtomWriteCalls (path : List String) (subMutator : JVal → JVal) :
    List (JVal → JVal) :=
  [derivedAtomMutator path subMutator]

/-- Modelled from the spec: a direct parent-store update "addressed at
the lens's path" — walk the path inside the parent value and apply the
sub-value mutator to the node found there, leaving everything else
unchanged. -/
def updateAtPath : List String → (JVal → JVal) → JVal → JVal
  | [], f, v => f v
  | k :: ks, f, .obj fields =>
    .obj (modifyAssoc k (fun sub => updateAtPath ks f sub) fields)
  | _ :: _, _, v => v

/-! Initialization hook (`useSetInitialAtomValueFromQuery`,
src/index.ts:16-27).  JavaScript truthiness decides whether the query
data is written, so we model the query data as a JS value. -/

/-- A JavaScript value as tested by the hook's condition. -/
inductive JSVal where
  | undef
  | null
  | bool (b : Bool)
  | num (n : Int)
  | str (s : String)
  | obj
deriving DecidableEq

/-- JavaScript truthiness: `undefined`, `null`, `false`, `0` and the
empty string are falsy; objects and all other primitives are truthy. -/
def truthy : JSVal → Bool
  | .undef => false
  | .null => false
  | .bool b => b
  | .num n => decide (n ≠ 0)
  | .str s => decide (s ≠ "")
  | .obj => true

/-- Result of one pass of the hook's effect: the atom's value
afterwards, and whether the atom was written. -/
structure HookResult where
  atomValue : JSVal
  wrote : Bool
deriving DecidableEq

/-- The hook's effect (src/index.ts:22-26): if loading has finished and
the query data is truthy, write the query data into the atom; otherwise
leave the atom alone. -/
def useSetInitialAtomValueFromQuery (prior : JSVal) (queryData : JSVal)
    (isLoading : Bool) : HookResult :=
  if !isLoading && truthy queryData then ⟨queryData, true⟩
  else ⟨prior, false⟩

/-! Helper lemmas about recipes and the patch engine model. -/

theorem applyRecipe_untouched {r : List Mutation} {k : String}
    (h : k ∉ keysOf r) (v : Value) : applyRecipe v r k = v k := by
  induction r generalizing v with
  | nil => rfl
  | cons m rest ih =>
    simp only [keysOf, List.map_cons, List.mem_cons, not_or] at h
    show applyRecipe (applyMutation v m) rest k = v k
    have h2 : k ∉ keysOf rest := by simpa [keysOf] using h.2
    rw [ih h2]
    cases m with
    | set k2 n =>
      have h1 : k ≠ k2 := by simpa [Mutation.key] using h.1
      simp [applyMutation, h1]
    | remove k2 =>
      have h1 : k ≠ k2 := by simpa [Mutation.key] using h.1
      simp [applyMutation, h1]

theorem applyRecipe_congr_at {v w : Value} {k : String}
    (h : v k = w k) (r : List Mutation) :
    applyRecipe v r k = applyRecipe w r k := by
  induction r generalizing v w with
  | nil => exact h
  | cons m rest ih =>
    show applyRecipe (applyMutation v m) rest k = applyRecipe (applyMutation w m) rest k
    apply ih
    cases m with
    | set k2 n => by_cases hk : k = k2 <;> simp [applyMutation, hk, h]
    | remove k2 => by_cases hk : k = k2 <;> simp [applyMutation, hk, h]

theorem applyPatch_mkPatch (v : Value) (k : String) (o n : Option Nat)
    (q : String) :
    applyPatch v (mkPatch k o n) q = if q = k then n else v q := by
  cases o <;> cases n <;> simp [mkPatch, applyPatch]

theorem applyPatches_mkPatch_map (g f : String → Option Nat)
    (ks : List String) (v : Value) (k : String) :
    applyPatches v (ks.map fun x => mkPatch x (g x) (f x)) k
      = if k ∈ ks then f k else v k := by
  induction ks generalizing v with
  | nil => simp [applyPatches]
  | cons k0 rest ih =>
    show applyPatches (applyPatch v (mkPatch k0 (g k0) (f k0)))
      (rest.map fun x => mkPatch x (g x) (f x)) k = _
    rw [ih, applyPatch_mkPatch]
    by_cases hr : k ∈ rest <;> by_cases hk : k = k0 <;> simp [hr, hk]

theorem changedKeys_subset {v : Value} {r : List Mutation} {k : String}
    (h : k ∈ changedKeys v r) : k ∈ keysOf r :=
  List.mem_dedup.mp (List.mem_filter.mp h).1

theorem applyRecipe_not_changed {v : Value} {r : List Mutation} {k : String}
    (h : k ∉ changedKeys v r) : applyRecipe v r k = v k := by
  by_cases hk : k ∈ keysOf r
  · by_contra hne
    refine h (List.mem_filter.mpr ⟨List.mem_dedup.mpr hk, ?_⟩)
    simp only [ne_eq, decide_eq_true_eq]
    exact fun he => hne he.symm
  · exact applyRecipe_untouched hk v

theorem applyPatches_forward (v : Value) (r : List Mutation) :
    applyPatches v (forwardPatches v r) = applyRecipe v r := by
  funext q
  have h := applyPatches_mkPatch_map (fun x => v x)
    (fun x => applyRecipe v r x) (changedKeys v r) v q
  rw [forwardPatches, h]
  by_cases hq : q ∈ changedKeys v r
  · rw [if_pos hq]
  · rw [if_neg hq]
    exact (applyRecipe_not_changed hq).symm

theorem rollback_restores (v0 : Value) (r u : List Mutation)
    (hdisj : ∀ k ∈ keysOf u, k ∉ keysOf r) :
    applyPatches (applyRecipe (applyPatches v0 (forwardPatches v0 r)) u)
      (invPatchesOf v0 r) = applyRecipe v0 u := by
  funext q
  rw [applyPatches_forward]
  have h := applyPatches_mkPatch_map (fun x => applyRecipe v0 r x)
    (fun x => v0 x) (changedKeys v0 r) (applyRecipe (applyRecipe v0 r) u) q
  rw [invPatchesOf, h]
  by_cases hq : q ∈ changedKeys v0 r
  · rw [if_pos hq]
    have hqr : q ∈ keysOf r := changedKeys_subset hq
    have hqu : q ∉ keysOf u := fun hu => hdisj q hu hqr
    exact (applyRecipe_untouched hqu v0).symm
  · rw [if_neg hq]
    exact applyRecipe_congr_at (applyRecipe_not_changed hq) u

theorem patchTarget_mkPatch (k : String) (o n : Option Nat) :
    patchTarget (mkPatch k o n) = n := by
  cases o <;> cases n <;> simp [mkPatch, patchTarget]

theorem mkPatch_path (k : String) (o n : Option Nat) :
    (mkPatch k o n).path = k := by
  cases o <;> cases n <;> rfl

/-! Helper lemmas about the derived lens. -/

theorem modifyAssoc_congr {k : String} {g1 g2 : JVal → JVal}
    {fields : List (String × JVal)} {sub : JVal}
    (hget : getAssoc k fields = some sub) (h : g1 sub = g2 sub) :
    modifyAssoc k g1 fields = modifyAssoc k g2 fields := by
  induction fields with
  | nil => rfl
  | cons kv rest ih =>
    by_cases hk : kv.1 = k
    · simp only [getAssoc, if_pos hk] at hget
      have hv : kv.2 = sub := Option.some.inj hget
      simp [modifyAssoc, hk, hv, h]
    · simp only [getAssoc, if_neg hk] at hget
      simp [modifyAssoc, hk, ih hget]

theorem derivedAtomMutator_eq_updateAtPath (path : List String)
    (f : JVal → JVal) (root : JVal)
    (h : (getPath path root).isSome = true) :
    derivedAtomMutator path f root = updateAtPath path f root := by
  induction path generalizing root with
  | nil => rfl
  | cons k ks ih =>
    cases root with
    | num n => simp [getPath] at h
    | obj fields =>
      cases hga : getAssoc k fields with
      | none => simp [getPath, hga] at h
      | some sub =>
        have hsub : (getPath ks sub).isSome = true := by
          simpa [getPath, hga] using h
        cases hgp : getPath ks sub with
        | none => simp [hgp] at hsub
        | some s =>
          have hgp2 : getPath (k :: ks) (JVal.obj fields) = some s := by
            simp [getPath, hga, hgp]
          have hinner : setPath ks (f s) sub = updateAtPath ks f sub := by
            have hi := ih sub hsub
            rw [derivedAtomMutator, hgp] at hi
            exact hi
          rw [derivedAtomMutator, hgp2]
          show JVal.obj (modifyAssoc k (fun x => setPath ks (f s) x) fields)
            = JVal.obj (modifyAssoc k (fun x => updateAtPath ks f x) fields)
          exact congrArg JVal.obj (modifyAssoc_congr hga hinner)

/-! Helper lemmas about the collector and the runner's onError branch. -/

theorem collectorStep_onError {Ctx Res Err Exn EF : Type}
    (s : Saga Ctx Res Err Exn EF) (c : BuilderCall Ctx Res Err Exn EF) :
    (collectorStep s c).onError = s.onError := by
  cases c <;> rfl

theorem foldl_collectorStep_onError {Ctx Res Err Exn EF : Type}
    (calls : List (BuilderCall Ctx Res Err Exn EF))
    (s : Saga Ctx Res Err Exn EF) :
    (List.foldl collectorStep s calls).onError = s.onError := by
  induction calls generalizing s with
  | nil => rfl
  | cons c rest ih => rw [List.foldl_cons, ih, collectorStep_onError]

theorem onErrorCallOf_of_onError_none {Ctx Res Err Exn EF : Type}
    (saga : Saga Ctx Res Err Exn EF) (h : saga.onError = none)
    (v0 : Value) (intl : Value → Value) (outcome : Outcome Res Err) :
    onErrorCallOf (runSaga saga v0 intl outcome) = none := by
  obtain ⟨u, e, p, o⟩ := saga
  simp only at h
  subst h
  cases u with
  | none => rfl
  | some ru =>
    cases hr : ru v0 with
    | error ex => simp [runSaga, hr, onErrorCallOf]
    | ok rc =>
      obtain ⟨recipe, ctx⟩ := rc
      cases e with
      | none => simp [runSaga, hr, onErrorCallOf]
      | some ef =>
        cases outcome with
        | resolved r =>
          cases p with
          | none => simp [runSaga, hr, onErrorCallOf]
          | some pe =>
            cases hpe : pe r (intl (applyPatches v0 (produceWithPatches v0 recipe).2.1)) with
            | error ex => simp [runSaga, hr, hpe, onErrorCallOf]
            | ok prc => simp [runSaga, hr, hpe, onErrorCallOf]
        | rejected er => simp [runSaga, hr, onErrorCallOf]

/-! Claim theorems. -/

/-- C6: for every saga declaration that registers no update stage —
whatever the effect, postEffect or onError registration — running the
saga performs no store update, never invokes the effect stage, and
leaves the store's value unchanged. -/
theorem saga_noop_without_update {Ctx Res Err Exn EF : Type}
    (eff : Option EF)
    (pe : Option (Res → Value → Except Exn (List Mutation)))
    (oe : Option (Err → Value → Except Exn (List Mutation)))
    (v0 : Value) (intl : Value → Value) (outcome : Outcome Res Err) :
    runSaga (⟨none, eff, pe, oe⟩ : Saga Ctx Res Err Exn EF) v0 intl outcome
      = Except.ok ⟨v0, none, none, none, none, false⟩ := rfl

/-- C2: rollback locality.  For a saga whose update stage commits a
mutation and whose effect rejects, the inverse patches are applied to
the store's value at the moment of rejection; if a concurrent update
touching disjoint keys committed in between, the final value is the
value before the saga's update plus the concurrent update's change —
the concurrent change survives, the saga's change is removed. -/
theorem rollback_locality {Ctx Res Err Exn EF : Type}
    (recipe : Value → List Mutation) (rCtx : Value → Ctx) (ef : EF)
    (uPrime : List Mutation) (v0 : Value) (err : Err)
    (hdisj : ∀ k ∈ keysOf uPrime, k ∉ keysOf (recipe v0)) :
    finalOf (runSaga
      (⟨some (fun v => Except.ok (recipe v, rCtx v)), some ef, none, none⟩ :
        Saga Ctx Res Err Exn EF)
      v0 (fun v => applyRecipe v uPrime) (Outcome.rejected err))
      = some (applyRecipe v0 uPrime) := by
  show some (applyPatches
      (applyRecipe (applyPatches v0 (forwardPatches v0 (recipe v0))) uPrime)
      (invPatchesOf v0 (recipe v0))) = _
  rw [rollback_restores v0 (recipe v0) uPrime hdisj]

/-- Witness for the rollback-locality theorem: the saga optimistically
sets `flag`, a concurrent update sets the sibling key `count`, the
effect rejects; the final value is the concurrent update applied to the
original value. -/
theorem rollback_locality_witness :
    (∀ k ∈ keysOf [Mutation.set "count" 1], k ∉ keysOf [Mutation.set "flag" 1]) ∧
    finalOf (runSaga
      (⟨some (fun _ => Except.ok ([Mutation.set "flag" 1], 0)), some 0, none,
        none⟩ : Saga Nat Nat String String Nat)
      (fun _ => (none : Option Nat))
      (fun v => applyRecipe v [Mutation.set "count" 1])
      (Outcome.rejected "network down"))
      = some (applyRecipe (fun _ => none) [Mutation.set "count" 1]) :=
  ⟨by decide,
    rollback_locality (fun _ => [Mutation.set "flag" 1]) (fun _ => 0) 0
      [Mutation.set "count" 1] (fun _ => none) "network down" (by decide)⟩

/-- C1 (the code contradicts this claim): the collector object built by
`runSaga` (src/index.ts:120-133) has `update`, `effect` and `postEffect`
methods but no `onError` method, even though the `Saga` type carries an
`onError` field, the runner handles it (src/index.ts:184-188), and the
README example chains `.onError`.  Consequently no saga declared
through the builder can ever register an onError stage, and the onError
stage is never invoked — not even when the effect rejects. -/
theorem saga_builder_cannot_register_onError {Ctx Res Err Exn EF : Type}
    (calls : List (BuilderCall Ctx Res Err Exn EF)) (v0 : Value)
    (intl : Value → Value) (outcome : Outcome Res Err) :
    (collectSaga calls).onError = none ∧
    onErrorCallOf (runSaga (collectSaga calls) v0 intl outcome) = none := by
  have h : (collectSaga calls).onError = none :=
    foldl_collectorStep_onError calls (emptySaga Ctx Res Err Exn EF)
  exact ⟨h, onErrorCallOf_of_onError_none (collectSaga calls) h v0 intl outcome⟩

/-- C3: the inverse patch list the runner retains is exactly the
inverse patch list the patch engine produces for the mutation performed
by the saga's own update stage on the store's value at update time —
independent of the interleaved concurrent updates and of the effect's
outcome — and every patch in it addresses a key the update stage
touched and restores that key's content from the value at update
time. -/
theorem captured_inverse_exact {Ctx Res Err Exn EF : Type}
    (recipe : Value → List Mutation) (rCtx : Value → Ctx)
    (eff : Option EF) (v0 : Value) (intl : Value → Value)
    (outcome : Outcome Res Err) :
    capturedInverseOf (runSaga
      (⟨some (fun v => Except.ok (recipe v, rCtx v)), eff, none, none⟩ :
        Saga Ctx Res Err Exn EF) v0 intl outcome)
      = some (invPatchesOf v0 (recipe v0)) ∧
    ∀ p ∈ invPatchesOf v0 (recipe v0),
      p.path ∈ keysOf (recipe v0) ∧ patchTarget p = v0 p.path := by
  constructor
  · cases eff <;> cases outcome <;> rfl
  · intro p hp
    obtain ⟨k, hk, rfl⟩ := List.mem_map.mp hp
    rw [mkPatch_path, patchTarget_mkPatch]
    exact ⟨changedKeys_subset hk, rfl⟩

/-- Witness for the captured-inverse theorem: a saga setting `flag`
from 0 to 1 retains exactly the replace patch restoring `flag` to 0;
that patch addresses the touched key and restores the original
content. -/
theorem captured_inverse_exact_witness :
    ((⟨PatchOp.replace, "flag", some 0⟩ : Patch)
        ∈ invPatchesOf (fun k => if k = "flag" then some 0 else none)
          [Mutation.set "flag" 1]) ∧
    (⟨PatchOp.replace, "flag", some 0⟩ : Patch).path
        ∈ keysOf [Mutation.set "flag" 1] ∧
    patchTarget (⟨PatchOp.replace, "flag", some 0⟩ : Patch)
      = (fun k => if k = "flag" then some 0 else none : Value)
          (⟨PatchOp.replace, "flag", some 0⟩ : Patch).path := by
  have hmem : (⟨PatchOp.replace, "flag", some 0⟩ : Patch)
      ∈ invPatchesOf (fun k => if k = "flag" then some 0 else none)
        [Mutation.set "flag" 1] := by decide
  exact ⟨hmem,
    (@captured_inverse_exact Nat Nat String String Nat
      (fun _ => [Mutation.set "flag" 1]) (fun _ => 0) none
      (fun k => if k = "flag" then some 0 else none) id
      (Outcome.resolved 0)).2 _ hmem⟩

/-- C4: context threading.  The effect stage is invoked with first
argument the store value produced by the update stage (the runner
passes `nextState`, which equals the value the store holds after the
forward patches were applied) and second argument exactly the update
stage's return value; and the postEffect stage receives exactly the
value the effect's promise resolved with. -/
theorem context_threading {Ctx Res Err Exn EF : Type}
    (recipe : Value → List Mutation) (rCtx : Value → Ctx) (ef : EF)
    (pe : Res → Value → List Mutation) (v0 : Value) (intl : Value → Value)
    (outcome : Outcome Res Err) (r : Res) :
    effectCallOf (runSaga
      (⟨some (fun v => Except.ok (recipe v, rCtx v)), some ef,
        some (fun x w => Except.ok (pe x w)), none⟩ : Saga Ctx Res Err Exn EF)
      v0 intl outcome)
      = some (ef, applyRecipe v0 (recipe v0), rCtx v0) ∧
    applyPatches v0 (forwardPatches v0 (recipe v0))
      = applyRecipe v0 (recipe v0) ∧
    postEffectCallOf (runSaga
      (⟨some (fun v => Except.ok (recipe v, rCtx v)), some ef,
        some (fun x w => Except.ok (pe x w)), none⟩ : Saga Ctx Res Err Exn EF)
      v0 intl (Outcome.resolved r))
      = some r := by
  refine ⟨?_, applyPatches_forward v0 (recipe v0), rfl⟩
  cases outcome <;> rfl

/-- C5: success path.  When the effect resolves, the final store value
is the post-update value plus exactly the changes the postEffect stage
makes to it, and the inverse patches are never applied — no rollback
occurs on the success path, whatever concurrent updates interleave. -/
theorem success_path_no_rollback {Ctx Res Err Exn EF : Type}
    (recipe : Value → List Mutation) (rCtx : Value → Ctx) (ef : EF)
    (pe : Res → Value → List Mutation) (v0 : Value) (r : Res) :
    finalOf (runSaga
      (⟨some (fun v => Except.ok (recipe v, rCtx v)), some ef,
        some (fun x w => Except.ok (pe x w)), none⟩ : Saga Ctx Res Err Exn EF)
      v0 id (Outcome.resolved r))
      = some (applyRecipe (applyRecipe v0 (recipe v0))
          (pe r (applyRecipe v0 (recipe v0)))) ∧
    ∀ intl : Value → Value,
      rollbackOf (runSaga
        (⟨some (fun v => Except.ok (recipe v, rCtx v)), some ef,
          some (fun x w => Except.ok (pe x w)), none⟩ : Saga Ctx Res Err Exn EF)
        v0 intl (Outcome.resolved r)) = false := by
  constructor
  · show some (applyRecipe (applyPatches v0 (forwardPatches v0 (recipe v0)))
      (pe r (applyPatches v0 (forwardPatches v0 (recipe v0))))) = _
    rw [applyPatches_forward]
  · intro intl
    rfl

/-- C7: effect failure semantics.  A rejection of the effect stage is
always handled by the runner: the run completes without propagating
anything, the inverse patches are applied, and the onError stage — when
the descriptor carries one — receives exactly the failure reason.  In
contrast, exceptions thrown inside update, inside postEffect (on the
success path) or inside onError (on the failure path) are not caught
and propagate. -/
theorem effect_rejection_handling {Ctx Res Err Exn EF : Type}
    (recipe : Value → List Mutation) (rCtx : Value → Ctx) (ef : EF)
    (oe : Err → Value → List Mutation)
    (pe : Option (Res → Value → Except Exn (List Mutation)))
    (v0 : Value) (intl : Value → Value) (err : Err) (ex : Exn) (r : Res) :
    (exceptIsOk (runSaga
        (⟨some (fun v => Except.ok (recipe v, rCtx v)), some ef, pe,
          some (fun x w => Except.ok (oe x w))⟩ : Saga Ctx Res Err Exn EF)
        v0 intl (Outcome.rejected err)) = true ∧
      rollbackOf (runSaga
        (⟨some (fun v => Except.ok (recipe v, rCtx v)), some ef, pe,
          some (fun x w => Except.ok (oe x w))⟩ : Saga Ctx Res Err Exn EF)
        v0 intl (Outcome.rejected err)) = true ∧
      onErrorCallOf (runSaga
        (⟨some (fun v => Except.ok (recipe v, rCtx v)), some ef, pe,
          some (fun x w => Except.ok (oe x w))⟩ : Saga Ctx Res Err Exn EF)
        v0 intl (Outcome.rejected err)) = some err) ∧
    runSaga (⟨some (fun _ => Except.error ex), some ef, pe, none⟩ :
        Saga Ctx Res Err Exn EF) v0 intl (Outcome.rejected err)
      = Except.error ex ∧
    runSaga (⟨some (fun v => Except.ok (recipe v, rCtx v)), some ef,
        some (fun _ _ => Except.error ex), none⟩ : Saga Ctx Res Err Exn EF)
      v0 intl (Outcome.resolved r) = Except.error ex ∧
    runSaga (⟨some (fun v => Except.ok (recipe v, rCtx v)), some ef, none,
        some (fun _ _ => Except.error ex)⟩ : Saga Ctx Res Err Exn EF)
      v0 intl (Outcome.rejected err) = Except.error ex :=
  ⟨⟨rfl, rfl, rfl⟩, rfl, rfl, rfl⟩

/-- C8: lens write pass-through.  A derived-atom write invokes exactly
one parent-store update, whose mutator runs the sub-value mutator on
the node the projection addresses in the parent draft; when the
projection (a key path) resolves, the resulting parent value equals a
direct update addressed at the lens's path on the parent store. -/
theorem lens_write_pass_through (path : List String)
    (subMut : JVal → JVal) (root : JVal)
    (h : (getPath path root).isSome = true) :
    (derivedAtomWriteCalls path subMut).length = 1 ∧
    List.foldl (fun v g => g v) root (derivedAtomWriteCalls path subMut)
      = updateAtPath path subMut root := by
  refine ⟨rfl, ?_⟩
  show derivedAtomMutator path subMut root = updateAtPath path subMut root
  exact derivedAtomMutator_eq_updateAtPath path subMut root h

/-- Witness for the lens pass-through theorem: projecting the field
`anotherObject` out of a two-field parent and replacing its
`nestedNumber` sub-field through the lens equals the direct update at
that path. -/
theorem lens_write_pass_through_witness :
    (getPath ["anotherObject"]
      (JVal.obj [("bigList", JVal.num 7),
        ("anotherObject", JVal.obj [("nestedNumber", JVal.num 1)])])).isSome
      = true ∧
    ((derivedAtomWriteCalls ["anotherObject"]
        (fun _ => JVal.num 5)).length = 1 ∧
      List.foldl (fun v g => g v)
        (JVal.obj [("bigList", JVal.num 7),
          ("anotherObject", JVal.obj [("nestedNumber", JVal.num 1)])])
        (derivedAtomWriteCalls ["anotherObject"] (fun _ => JVal.num 5))
      = updateAtPath ["anotherObject"] (fun _ => JVal.num 5)
          (JVal.obj [("bigList", JVal.num 7),
            ("anotherObject", JVal.obj [("nestedNumber", JVal.num 1)])])) :=
  ⟨by decide,
    lens_write_pass_through ["anotherObject"] (fun _ => JVal.num 5)
      (JVal.obj [("bigList", JVal.num 7),
        ("anotherObject", JVal.obj [("nestedNumber", JVal.num 1)])])
      (by decide)⟩

/-- C9: builder overwrite semantics.  The collector's stage methods all
mutate the one shared saga descriptor and return the same collector (in
the model: a chain of builder calls is folded over one descriptor), and
calling the same stage method a second time replaces the previously
registered function — after two calls only the last function is
stored. -/
theorem builder_overwrite {Ctx Res Err Exn EF : Type}
    (cs : List (BuilderCall Ctx Res Err Exn EF))
    (f1 f2 : Value → Except Exn (List Mutation × Ctx)) (e1 e2 : EF)
    (p1 p2 : Res → Value → Except Exn (List Mutation)) :
    collectSaga (cs ++ [BuilderCall.update f1, BuilderCall.update f2])
      = collectSaga (cs ++ [BuilderCall.update f2]) ∧
    collectSaga (cs ++ [BuilderCall.effect e1, BuilderCall.effect e2])
      = collectSaga (cs ++ [BuilderCall.effect e2]) ∧
    collectSaga (cs ++ [BuilderCall.postEffect p1, BuilderCall.postEffect p2])
      = collectSaga (cs ++ [BuilderCall.postEffect p2]) := by
  refine ⟨?_, ?_, ?_⟩ <;> simp only [collectSaga, List.foldl_append] <;> rfl

/-- C10: the initialization hook writes the query data into the atom
exactly when loading has finished and the query data is truthy; for
every falsy query value (undefined, null, false, 0, the empty string)
the atom is never written — also after loading completes — and keeps
its prior value. -/
theorem initial_value_from_query (q prior : JSVal) (isLoading : Bool) :
    ((useSetInitialAtomValueFromQuery prior q isLoading).wrote = true ↔
      (isLoading = false ∧ truthy q = true)) ∧
    (truthy q = false →
      useSetInitialAtomValueFromQuery prior q isLoading = ⟨prior, false⟩) := by
  cases isLoading <;> cases ht : truthy q <;>
    simp [useSetInitialAtomValueFromQuery, ht]

/-- Witness for the initialization-hook theorem: with loading finished
and query data `0` (defined but falsy), the atom keeps its prior value
and is not written. -/
theorem initial_value_from_query_witness :
    truthy (JSVal.num 0) = false ∧
    useSetInitialAtomValueFromQuery JSVal.null (JSVal.num 0) false
      = ⟨JSVal.null, false⟩ :=
  ⟨by decide,
    (initial_value_from_query (JSVal.num 0) JSVal.null false).2 (by decide)⟩

end JotaiOptimistic



